import Mathlib

/-!
A shallow embedding of the `django_app` to-do application and a verification of the
behavioural properties of its lifecycle views (`views.py`), its OAuth provider
provisioning (`signals.py`) and its configuration lookup (`_read_config_parameter`).

The database table of `Todo` rows is embedded as a `List Todo`; the ORM operations
used by the views (`filter`, `get_object_or_404`, `create`, `save`) become list
operations; `timezone.now()` becomes an explicit `now : Nat` argument; a raised
`Http404` or the "cannot be empty" message become the `ViewError` outcome of an
`Except`, which aborts the request before any write, leaving the table unchanged.
-/

namespace TodoApp

/-- The persisted to-do record (class `Todo` in `models.py`): owner reference,
free-text content, creation timestamp, nullable completion timestamp
(`marked_as_done_at`, the spec's `completed_at`).
Modelled from the spec: the `deleted_at` column (nullable timestamp, null means
"active", non-null means "in trash") is read and written by every view and test of
the repository but its declaration is missing from the `models.py` snapshot; it is
embedded here exactly as the spec's data model describes it. -/
structure Todo where
  id : Nat
  user : Nat
  content : String
  created_at : Nat
  marked_as_done_at : Option Nat
  deleted_at : Option Nat
deriving DecidableEq

/-- Property `Todo.is_done` (`models.py`): done iff `marked_as_done_at` is not null. -/
def Todo.is_done (t : Todo) : Bool := t.marked_as_done_at.isSome

/-- Property `Todo.is_deleted` (asserted by the test suite, described by the spec):
deleted iff `deleted_at` is not null. -/
def Todo.is_deleted (t : Todo) : Bool := t.deleted_at.isSome

/-- How a view aborts: `Http404` raised by `get_object_or_404`, or the
"Todo content cannot be empty!" error message on create. An aborted request
performs no write, so the table is unchanged. -/
inductive ViewError where
  | notFound
  | validationError
deriving DecidableEq

/-- ORM `save()` on a fetched row: the stored row with the same primary key is
replaced by the modified row. -/
def save (db : List Todo) (t' : Todo) : List Todo :=
  db.map (fun t => if t.id == t'.id then t' else t)

/-- Database invariant: primary keys are unique. -/
def uniqueIds (db : List Todo) : Prop := (db.map Todo.id).Nodup

instance (db : List Todo) : Decidable (uniqueIds db) := List.nodupDecidable _

/-- View `toggle_todo` (`views.py`): `get_object_or_404(Todo, id=todo_id,
user=request.user)`, then flip `marked_as_done_at` (clear it if done, set it to
`now` if not), then `save`. -/
def toggle_todo (db : List Todo) (u todo_id now : Nat) : Except ViewError (List Todo) :=
  match db.find? (fun t => t.id == todo_id && t.user == u) with
  | none => .error .notFound
  | some todo =>
      let todo' := if todo.is_done
        then { todo with marked_as_done_at := none }
        else { todo with marked_as_done_at := some now }
      .ok (save db todo')

/-- View `delete_todo` (`views.py`): `get_object_or_404(Todo, id=todo_id,
user=request.user)`, then set `deleted_at = timezone.now()` unconditionally and
`save`. -/
def delete_todo (db : List Todo) (u todo_id now : Nat) : Except ViewError (List Todo) :=
  match db.find? (fun t => t.id == todo_id && t.user == u) with
  | none => .error .notFound
  | some todo => .ok (save db { todo with deleted_at := some now })

/-- View `restore_todo` (`views.py`): `get_object_or_404(Todo, id=todo_id,
user=request.user, deleted_at__isnull=False)`, then clear `deleted_at` and `save`. -/
def restore_todo (db : List Todo) (u todo_id : Nat) : Except ViewError (List Todo) :=
  match db.find? (fun t => t.id == todo_id && t.user == u && t.deleted_at.isSome) with
  | none => .error .notFound
  | some todo => .ok (save db { todo with deleted_at := none })

/-- Insertion step for the `Meta.ordering = ['-created_at']` ordering (newest
first) applied to every queryset of `Todo`. -/
def insertByCreatedDesc (t : Todo) : List Todo → List Todo
  | [] => [t]
  | x :: xs =>
      if x.created_at ≤ t.created_at then t :: x :: xs else x :: insertByCreatedDesc t xs

/-- Sort newest-first, per `Meta.ordering = ['-created_at']` in `models.py`. -/
def sortByCreatedDesc (l : List Todo) : List Todo := l.foldr insertByCreatedDesc []

/-- The queryset of the `todo_list` view (`views.py`): the caller's rows with
`deleted_at__isnull=True`, newest first. This is the spec's `ListActive`. -/
def todo_list_view (db : List Todo) (u : Nat) : List Todo :=
  sortByCreatedDesc (db.filter (fun t => t.user == u && t.deleted_at.isNone))

/-- The queryset of the `trash` view (`views.py`): the caller's rows with
`deleted_at__isnull=False`, newest first. This is the spec's `ListTrashed`. -/
def trash_view (db : List Todo) (u : Nat) : List Todo :=
  sortByCreatedDesc (db.filter (fun t => t.user == u && t.deleted_at.isSome))

/-- A fresh primary key for an inserted row. -/
def nextId (db : List Todo) : Nat := (db.map Todo.id).foldr max 0 + 1

/-- Python's `str.strip()`: remove whitespace from both ends of the string. -/
def pyStrip (s : String) : String :=
  ⟨(((s.data.dropWhile Char.isWhitespace).reverse.dropWhile Char.isWhitespace).reverse)⟩

/-- The POST branch of the `todo_list` view (`views.py`): strip the submitted
content; if non-empty, `Todo.objects.create(content=content, user=request.user)`
(fresh id, `created_at = now`, both nullable timestamps null); else the
"cannot be empty" error, with no row created. -/
def todo_list_create (db : List Todo) (u : Nat) (content : String) (now : Nat) :
    Except ViewError (List Todo) :=
  let content := pyStrip content
  if content ≠ "" then
    .ok (db ++ [{ id := nextId db, user := u, content := content, created_at := now,
                  marked_as_done_at := none, deleted_at := none }])
  else
    .error .validationError

/-- The routing table of `urls.py`, as (path pattern, view name) pairs. -/
def urlpatterns : List (String × String) :=
  [("", "todo_list"),
   ("toggle/<int:todo_id>/", "toggle_todo"),
   ("delete/<int:todo_id>/", "delete_todo"),
   ("trash/", "trash"),
   ("restore/<int:todo_id>/", "restore_todo")]

/-! Helper lemmas about the embedded ORM operations. -/

theorem find?_eq_some_unique {p : Todo → Bool} {db : List Todo} {t : Todo}
    (hmem : t ∈ db) (hpt : p t = true)
    (huniq : ∀ x ∈ db, p x = true → x = t) :
    db.find? p = some t := by
  induction db with
  | nil => cases hmem
  | cons a as ih =>
      by_cases ha : p a = true
      · have hat : a = t := huniq a (List.mem_cons_self a as) ha
        rw [List.find?_cons_of_pos _ ha, hat]
      · have ha' : p a = false := by
          cases hpa : p a with
          | true => exact absurd hpa ha
          | false => rfl
        rw [List.find?_cons_of_neg _ (by simp [ha'])]
        rcases List.mem_cons.mp hmem with h | h
        · subst h; exact absurd hpt ha
        · exact ih h (fun x hx hpx => huniq x (List.mem_cons_of_mem _ hx) hpx)

theorem find?_eq_none_of {p : Todo → Bool} {db : List Todo}
    (h : ∀ x ∈ db, p x = false) : db.find? p = none := by
  rw [List.find?_eq_none]
  intro x hx
  simp [h x hx]

theorem eq_of_id_eq {db : List Todo} (h : uniqueIds db) {t x : Todo}
    (hx : x ∈ db) (ht : t ∈ db) (hid : x.id = t.id) : x = t :=
  List.inj_on_of_nodup_map h hx ht hid

theorem save_ids (db : List Todo) (t' : Todo) :
    (save db t').map Todo.id = db.map Todo.id := by
  unfold save
  rw [List.map_map]
  apply List.map_congr_left
  intro a _
  by_cases h : a.id = t'.id
  · simp [Function.comp, h]
  · simp [Function.comp, h]

theorem uniqueIds_save {db : List Todo} (h : uniqueIds db) (t' : Todo) :
    uniqueIds (save db t') := by
  unfold uniqueIds at *
  rw [save_ids]
  exact h

theorem mem_save_self {db : List Todo} {t t' : Todo}
    (ht : t ∈ db) (hid : t'.id = t.id) : t' ∈ save db t' := by
  unfold save
  have hmap := List.mem_map_of_mem (fun y => if y.id == t'.id then t' else y) ht
  simpa [hid] using hmap

theorem mem_save_of_ne {db : List Todo} {x t' : Todo}
    (hx : x ∈ db) (h : x.id ≠ t'.id) : x ∈ save db t' := by
  unfold save
  have hmap := List.mem_map_of_mem (fun y => if y.id == t'.id then t' else y) hx
  simpa [h] using hmap

theorem eq_of_mem_save_id {db : List Todo} {y t' : Todo}
    (hy : y ∈ save db t') (hid : y.id = t'.id) : y = t' := by
  unfold save at hy
  rcases List.mem_map.mp hy with ⟨x, hx, hfx⟩
  by_cases h : x.id = t'.id
  · rw [← hfx]; simp [h]
  · exfalso
    apply h
    rw [← hfx] at hid
    simp [h] at hid

theorem mem_of_mem_save {db : List Todo} {y t' : Todo}
    (hy : y ∈ save db t') : y = t' ∨ y ∈ db := by
  unfold save at hy
  rcases List.mem_map.mp hy with ⟨x, hx, hfx⟩
  by_cases h : x.id = t'.id
  · left; rw [← hfx]; simp [h]
  · right; rw [← hfx]; simpa [h] using hx

theorem mem_insertByCreatedDesc {t x : Todo} {l : List Todo} :
    x ∈ insertByCreatedDesc t l ↔ x = t ∨ x ∈ l := by
  induction l with
  | nil => simp [insertByCreatedDesc]
  | cons a as ih =>
      unfold insertByCreatedDesc
      by_cases h : a.created_at ≤ t.created_at
      · simp [h]
      · simp [h, ih]
        tauto

theorem mem_sortByCreatedDesc {x : Todo} {l : List Todo} :
    x ∈ sortByCreatedDesc l ↔ x ∈ l := by
  unfold sortByCreatedDesc
  induction l with
  | nil => simp
  | cons a as ih =>
      simp only [List.foldr_cons, mem_insertByCreatedDesc, ih, List.mem_cons]

/-- C1: for every two distinct users U1 and U2 and every to-do item of U1, each
id-addressed view (`toggle_todo`, `delete_todo`, `restore_todo`) invoked by U2
with that item's id fails with `NotFound` (the `Http404` of the owner-filtered
`get_object_or_404`), exactly as for a nonexistent id; the failing request
performs no write, so the item is unchanged. -/
theorem ownership_isolation (db : List Todo) (u1 u2 : Nat) (t : Todo) (now : Nat)
    (huniq : uniqueIds db) (hmem : t ∈ db) (howner : t.user = u1) (hne : u1 ≠ u2) :
    toggle_todo db u2 t.id now = .error .notFound ∧
    delete_todo db u2 t.id now = .error .notFound ∧
    restore_todo db u2 t.id = .error .notFound := by
  have hnone1 : db.find? (fun x => x.id == t.id && x.user == u2) = none := by
    apply find?_eq_none_of
    intro x hx
    by_cases hid : x.id = t.id
    · have hxt : x = t := eq_of_id_eq huniq hx hmem hid
      subst hxt
      simp [howner, hne]
    · simp [hid]
  have hnone2 : db.find? (fun x => x.id == t.id && x.user == u2 && x.deleted_at.isSome) = none := by
    apply find?_eq_none_of
    intro x hx
    by_cases hid : x.id = t.id
    · have hxt : x = t := eq_of_id_eq huniq hx hmem hid
      subst hxt
      simp [howner, hne]
    · simp [hid]
  refine ⟨?_, ?_, ?_⟩
  · simp only [toggle_todo, hnone1]
  · simp only [delete_todo, hnone1]
  · simp only [restore_todo, hnone2]

theorem ownership_isolation_witness :
    toggle_todo [⟨1, 1, "buy milk", 0, none, some 4⟩] 2 1 9 = .error .notFound ∧
    delete_todo [⟨1, 1, "buy milk", 0, none, some 4⟩] 2 1 9 = .error .notFound ∧
    restore_todo [⟨1, 1, "buy milk", 0, none, some 4⟩] 2 1 = .error .notFound :=
  ownership_isolation [⟨1, 1, "buy milk", 0, none, some 4⟩] 1 2
    ⟨1, 1, "buy milk", 0, none, some 4⟩ 9 (by decide) (by decide) rfl (by decide)

/-- C6: `restore_todo` invoked by the owner on an item whose `deleted_at` is null
fails with `NotFound` (the lookup filters on `deleted_at__isnull=False`), and the
aborted request leaves the item unchanged. -/
theorem restore_nontrashed_not_found (db : List Todo) (u : Nat) (t : Todo)
    (huniq : uniqueIds db) (hmem : t ∈ db) (howner : t.user = u)
    (hdel : t.deleted_at = none) :
    restore_todo db u t.id = .error .notFound := by
  have hnone : db.find? (fun x => x.id == t.id && x.user == u && x.deleted_at.isSome) = none := by
    apply find?_eq_none_of
    intro x hx
    by_cases hid : x.id = t.id
    · have hxt : x = t := eq_of_id_eq huniq hx hmem hid
      subst hxt
      simp [hdel]
    · simp [hid]
  simp only [restore_todo, hnone]

theorem restore_nontrashed_not_found_witness :
    restore_todo [⟨2, 5, "call mom", 1, some 3, none⟩] 5 2 = .error .notFound :=
  restore_nontrashed_not_found [⟨2, 5, "call mom", 1, some 3, none⟩] 5
    ⟨2, 5, "call mom", 1, some 3, none⟩ (by decide) (by decide) rfl rfl

/-- C7: `delete_todo` succeeds on every item the caller owns, with no guard on the
current trashed state: it sets `deleted_at` to the current time, and a second call
on the now-trashed item also succeeds and refreshes `deleted_at` to the newer
time (it is not a no-op). -/
theorem softdelete_always_sets_timestamp (db : List Todo) (u : Nat) (t : Todo)
    (now1 now2 : Nat)
    (huniq : uniqueIds db) (hmem : t ∈ db) (howner : t.user = u) :
    ∃ db1, delete_todo db u t.id now1 = .ok db1 ∧
      (∃ x ∈ db1, x.id = t.id ∧ x.deleted_at = some now1 ∧ x.user = t.user ∧
        x.content = t.content ∧ x.marked_as_done_at = t.marked_as_done_at) ∧
      ∃ db2, delete_todo db1 u t.id now2 = .ok db2 ∧
        ∃ y ∈ db2, y.id = t.id ∧ y.deleted_at = some now2 := by
  have hfind : db.find? (fun x => x.id == t.id && x.user == u) = some t := by
    apply find?_eq_some_unique hmem (by simp [howner])
    intro x hx hpx
    simp only [Bool.and_eq_true, beq_iff_eq] at hpx
    exact eq_of_id_eq huniq hx hmem hpx.1
  refine ⟨save db { t with deleted_at := some now1 }, ?_, ?_, ?_⟩
  · simp only [delete_todo, hfind]
  · exact ⟨{ t with deleted_at := some now1 },
      mem_save_self hmem rfl, rfl, rfl, rfl, rfl, rfl⟩
  · have hmem1 : ({ t with deleted_at := some now1 } : Todo) ∈
        save db { t with deleted_at := some now1 } := mem_save_self hmem rfl
    have hfind1 : (save db { t with deleted_at := some now1 }).find?
        (fun x => x.id == t.id && x.user == u) = some { t with deleted_at := some now1 } := by
      apply find?_eq_some_unique hmem1 (by simp [howner])
      intro x hx hpx
      simp only [Bool.and_eq_true, beq_iff_eq] at hpx
      exact eq_of_mem_save_id hx hpx.1
    refine ⟨save (save db { t with deleted_at := some now1 }) { t with deleted_at := some now2 }, ?_, ?_⟩
    · simp only [delete_todo, hfind1]
    · exact ⟨{ t with deleted_at := some now2 }, mem_save_self hmem1 rfl, rfl, rfl⟩

theorem softdelete_always_sets_timestamp_witness :
    ∃ db1, delete_todo [⟨3, 2, "water plants", 7, some 1, some 5⟩] 2 3 11 = .ok db1 ∧
      (∃ x ∈ db1, x.id = 3 ∧ x.deleted_at = some 11 ∧ x.user = 2 ∧
        x.content = "water plants" ∧ x.marked_as_done_at = some 1) ∧
      ∃ db2, delete_todo db1 2 3 12 = .ok db2 ∧
        ∃ y ∈ db2, y.id = 3 ∧ y.deleted_at = some 12 :=
  softdelete_always_sets_timestamp [⟨3, 2, "water plants", 7, some 1, some 5⟩] 2
    ⟨3, 2, "water plants", 7, some 1, some 5⟩ 11 12 (by decide) (by decide) rfl

/-- C2: for every item owned by the caller, `delete_todo` followed by
`restore_todo` on the same id succeeds and returns the item to the active
listing (`deleted_at` null again), removes it from the trash listing, and leaves
`marked_as_done_at` (the spec's `completed_at`) unchanged across the round trip. -/
theorem softdelete_restore_roundtrip (db : List Todo) (u : Nat) (t : Todo) (now1 : Nat)
    (huniq : uniqueIds db) (hmem : t ∈ db) (howner : t.user = u) :
    ∃ db1, delete_todo db u t.id now1 = .ok db1 ∧
      ∃ db2, restore_todo db1 u t.id = .ok db2 ∧
        ({ t with deleted_at := none } : Todo) ∈ todo_list_view db2 u ∧
        (∀ x ∈ trash_view db2 u, x.id ≠ t.id) ∧
        (∀ x ∈ db2, x.id = t.id → x.marked_as_done_at = t.marked_as_done_at) := by
  have hfind : db.find? (fun x => x.id == t.id && x.user == u) = some t := by
    apply find?_eq_some_unique hmem (by simp [howner])
    intro x hx hpx
    simp only [Bool.and_eq_true, beq_iff_eq] at hpx
    exact eq_of_id_eq huniq hx hmem hpx.1
  refine ⟨save db { t with deleted_at := some now1 }, ?_, ?_⟩
  · simp only [delete_todo, hfind]
  have hmem1 : ({ t with deleted_at := some now1 } : Todo) ∈
      save db { t with deleted_at := some now1 } := mem_save_self hmem rfl
  have hfind1 : (save db { t with deleted_at := some now1 }).find?
      (fun x => x.id == t.id && x.user == u && x.deleted_at.isSome) =
      some { t with deleted_at := some now1 } := by
    apply find?_eq_some_unique hmem1 (by simp [howner])
    intro x hx hpx
    simp only [Bool.and_eq_true, beq_iff_eq] at hpx
    exact eq_of_mem_save_id hx hpx.1.1
  refine ⟨save (save db { t with deleted_at := some now1 }) { t with deleted_at := none },
    ?_, ?_, ?_, ?_⟩
  · simp only [restore_todo, hfind1]
  · have hmem2 : ({ t with deleted_at := none } : Todo) ∈
        save (save db { t with deleted_at := some now1 }) { t with deleted_at := none } :=
      mem_save_self hmem1 rfl
    simp only [todo_list_view, mem_sortByCreatedDesc, List.mem_filter]
    exact ⟨hmem2, by simp [howner]⟩
  · intro x hx hxid
    simp only [trash_view, mem_sortByCreatedDesc, List.mem_filter] at hx
    rcases hx with ⟨hxdb, hxp⟩
    have hx2 : x = { t with deleted_at := none } := eq_of_mem_save_id hxdb hxid
    rw [hx2] at hxp
    simp at hxp
  · intro x hx hxid
    have hx2 : x = { t with deleted_at := none } := eq_of_mem_save_id hx hxid
    rw [hx2]

theorem softdelete_restore_roundtrip_witness :
    ∃ db1, delete_todo [⟨5, 4, "read", 3, some 2, none⟩] 4 5 30 = .ok db1 ∧
      ∃ db2, restore_todo db1 4 5 = .ok db2 ∧
        (⟨5, 4, "read", 3, some 2, none⟩ : Todo) ∈ todo_list_view db2 4 ∧
        (∀ x ∈ trash_view db2 4, x.id ≠ 5) ∧
        (∀ x ∈ db2, x.id = 5 → x.marked_as_done_at = some 2) :=
  softdelete_restore_roundtrip [⟨5, 4, "read", 3, some 2, none⟩] 4
    ⟨5, 4, "read", 3, some 2, none⟩ 30 (by decide) (by decide) rfl

/-- C4: `toggle_todo` is its own inverse with respect to done-ness: for every
item owned by the caller (regardless of trashed state), toggling twice succeeds
and restores the original nullness of `marked_as_done_at` (null stays null,
non-null stays non-null, though the stored timestamp may differ), leaving
`deleted_at` and `content` untouched. -/
theorem toggle_twice_restores_nullness (db : List Todo) (u : Nat) (t : Todo)
    (now1 now2 : Nat)
    (huniq : uniqueIds db) (hmem : t ∈ db) (howner : t.user = u) :
    ∃ db1, toggle_todo db u t.id now1 = .ok db1 ∧
      ∃ db2, toggle_todo db1 u t.id now2 = .ok db2 ∧
        ∃ x ∈ db2, x.id = t.id ∧
          x.marked_as_done_at.isSome = t.marked_as_done_at.isSome ∧
          x.deleted_at = t.deleted_at ∧ x.content = t.content := by
  have hfind : db.find? (fun x => x.id == t.id && x.user == u) = some t := by
    apply find?_eq_some_unique hmem (by simp [howner])
    intro x hx hpx
    simp only [Bool.and_eq_true, beq_iff_eq] at hpx
    exact eq_of_id_eq huniq hx hmem hpx.1
  cases hdone : t.marked_as_done_at with
  | none =>
      refine ⟨save db { t with marked_as_done_at := some now1 }, ?_, ?_⟩
      · simp only [toggle_todo, hfind]
        simp [Todo.is_done, hdone]
      · have hmem1 : ({ t with marked_as_done_at := some now1 } : Todo) ∈
            save db { t with marked_as_done_at := some now1 } := mem_save_self hmem rfl
        have hfind1 : (save db { t with marked_as_done_at := some now1 }).find?
            (fun x => x.id == t.id && x.user == u) =
            some { t with marked_as_done_at := some now1 } := by
          apply find?_eq_some_unique hmem1 (by simp [howner])
          intro x hx hpx
          simp only [Bool.and_eq_true, beq_iff_eq] at hpx
          exact eq_of_mem_save_id hx hpx.1
        refine ⟨save (save db { t with marked_as_done_at := some now1 })
          { t with marked_as_done_at := none }, ?_, ?_⟩
        · simp only [toggle_todo, hfind1]
          simp [Todo.is_done]
        · exact ⟨{ t with marked_as_done_at := none }, mem_save_self hmem1 rfl, rfl,
            by simp [hdone], rfl, rfl⟩
  | some ts =>
      refine ⟨save db { t with marked_as_done_at := none }, ?_, ?_⟩
      · simp only [toggle_todo, hfind]
        simp [Todo.is_done, hdone]
      · have hmem1 : ({ t with marked_as_done_at := none } : Todo) ∈
            save db { t with marked_as_done_at := none } := mem_save_self hmem rfl
        have hfind1 : (save db { t with marked_as_done_at := none }).find?
            (fun x => x.id == t.id && x.user == u) =
            some { t with marked_as_done_at := none } := by
          apply find?_eq_some_unique hmem1 (by simp [howner])
          intro x hx hpx
          simp only [Bool.and_eq_true, beq_iff_eq] at hpx
          exact eq_of_mem_save_id hx hpx.1
        refine ⟨save (save db { t with marked_as_done_at := none })
          { t with marked_as_done_at := some now2 }, ?_, ?_⟩
        · simp only [toggle_todo, hfind1]
          simp [Todo.is_done]
        · exact ⟨{ t with marked_as_done_at := some now2 }, mem_save_self hmem1 rfl, rfl,
            by simp [hdone], rfl, rfl⟩

theorem toggle_twice_restores_nullness_witness :
    ∃ db1, toggle_todo [⟨4, 3, "gym", 2, some 8, some 6⟩] 3 4 10 = .ok db1 ∧
      ∃ db2, toggle_todo db1 3 4 20 = .ok db2 ∧
        ∃ x ∈ db2, x.id = 4 ∧
          x.marked_as_done_at.isSome = (some 8 : Option Nat).isSome ∧
          x.deleted_at = some 6 ∧ x.content = "gym" :=
  toggle_twice_restores_nullness [⟨4, 3, "gym", 2, some 8, some 6⟩] 3
    ⟨4, 3, "gym", 2, some 8, some 6⟩ 10 20 (by decide) (by decide) rfl

/-- C3 counterexample: the exposed URL surface of the application, enumerated
exhaustively, consists of the five routes of `urls.py` — `todo_list`,
`toggle_todo`, `delete_todo`, `trash`, `restore_todo`. No `Edit` view exists, so
the claimed `Edit(owner, id, newContent)` operation is not part of the program. -/
theorem urlpatterns_enumeration :
    urlpatterns.map Prod.snd =
      ["todo_list", "toggle_todo", "delete_todo", "trash", "restore_todo"] := by
  decide

/-- C3 (amended): the program exposes no Edit operation; its routing table is
exactly the five entries of `urls.py` (todo_list doubling as Create and
ListActive, trash as ListTrashed, and the three id-addressed views), and no
route named `edit_todo` exists. -/
theorem lifecycle_routes_exact :
    urlpatterns =
      [("", "todo_list"),
       ("toggle/<int:todo_id>/", "toggle_todo"),
       ("delete/<int:todo_id>/", "delete_todo"),
       ("trash/", "trash"),
       ("restore/<int:todo_id>/", "restore_todo")] ∧
    "edit_todo" ∉ urlpatterns.map Prod.snd := by
  constructor
  · rfl
  · decide

/-- C5 counterexample: the claim also quantifies over an `Edit` operation, but no
edit view is routed anywhere in `urls.py` — the program has no Edit entry point,
so the Edit half of the claim does not exist in the code. -/
theorem edit_view_absent :
    "edit_todo" ∉ urlpatterns.map Prod.snd ∧ "edit" ∉ urlpatterns.map Prod.snd := by
  decide

/-- C5 (amended): Create with content that is empty or whitespace-only after
stripping fails with the validation error and causes no state change (the error
branch of `todo_list` performs no `Todo.objects.create`; the table is returned
unchanged); the Edit half of the original claim is dropped because the program
has no Edit operation. -/
theorem create_blank_rejected (db : List Todo) (u : Nat) (content : String) (now : Nat)
    (h : pyStrip content = "") :
    todo_list_create db u content now = .error .validationError := by
  unfold todo_list_create
  simp [h]

theorem create_blank_rejected_witness :
    todo_list_create [] 1 "" 0 = .error .validationError ∧
    todo_list_create [⟨1, 1, "x", 0, none, none⟩] 1 "   " 3 = .error .validationError :=
  ⟨create_blank_rejected [] 1 "" 0 rfl,
   create_blank_rejected [⟨1, 1, "x", 0, none, none⟩] 1 "   " 3 rfl⟩

/-! Embedding of `signals.py`: OAuth provider provisioning and the configuration
lookup. A provider entry of `SOCIAL_LOGIN_PROVIDERS` carries a display name and
two credentials, each possibly absent (`None`) because `_read_config_parameter`
returns an optional value. The persisted `SocialApp` table is a `List SocialApp`;
`sites` is the set of associated site ids. `print` notices are collected in a
list of strings. -/

/-- Python's `str.startswith(pre)`. -/
def pyStartswith (s pre : String) : Bool := pre.data.isPrefixOf s.data

/-- Python's `str.upper()` (the parameter names handled are ASCII). -/
def pyUpper (s : String) : String := ⟨s.data.map Char.toUpper⟩

/-- One entry of `SOCIAL_LOGIN_PROVIDERS`: display name and two credentials as
returned by `_read_config_parameter` (absent = Python `None`). -/
structure ProviderConfig where
  name : String
  client_id : Option String
  client_secret : Option String
deriving DecidableEq

/-- A persisted `allauth` `SocialApp` row: provider key, display name,
credentials, and the set of associated site ids. -/
structure SocialApp where
  provider : String
  name : String
  client_id : String
  secret : String
  sites : List Nat
deriving DecidableEq

/-- Python truthiness of a `str | None` value: `None` and `""` are falsy. -/
def truthyStr : Option String → Bool
  | none => false
  | some s => !s.isEmpty

/-- ORM row update: modify the (unique) first row matching the filter. -/
def updateFirst (p : α → Bool) (f : α → α) : List α → List α
  | [] => []
  | x :: xs => if p x then f x :: xs else x :: updateFirst p f xs

/-- The row mutation of the update branch: `social_app.name = ...;
social_app.client_id = ...; social_app.secret = ...; social_app.save()`. -/
def applyCredentials (cfg : ProviderConfig) (a : SocialApp) : SocialApp :=
  { a with
    name := cfg.name
    client_id := cfg.client_id.getD ""
    secret := cfg.client_secret.getD "" }

/-- The row mutation of `sites.add(site)`: a set-add of the site id. -/
def addSiteOnce (site : Nat) (a : SocialApp) : SocialApp :=
  { a with sites := if site ∈ a.sites then a.sites else a.sites ++ [site] }

/-- `social_app.sites.add(site)`: set-add of the site id on the row for
`provider_id` (no effect when already associated). -/
def addSiteTo (st : List SocialApp) (provider_id : String) (site : Nat) : List SocialApp :=
  updateFirst (fun a => a.provider == provider_id) (addSiteOnce site) st

/-- The loop body of `configure_social_apps` (`signals.py`) for one provider
entry: skip (with a printed notice) when a credential is missing or a
placeholder; otherwise `SocialApp.objects.get_or_create(provider=provider_id,
defaults=...)`, update name/credentials in place when the row already existed,
then `sites.add(site)` and print "Created ..."/"Updated ...". -/
def processProvider (site : Nat) (st : List SocialApp) (provider_id : String)
    (config : ProviderConfig) : List SocialApp × List String :=
  if !truthyStr config.client_id || !truthyStr config.client_secret then
    (st, ["Skipping " ++ config.name ++ " - credentials not provided"])
  else if pyStartswith (config.client_id.getD "") "your_" ||
          pyStartswith (config.client_secret.getD "") "your_" then
    (st, ["Skipping " ++ config.name ++ " - placeholder credentials detected"])
  else
    let cid := config.client_id.getD ""
    let sec := config.client_secret.getD ""
    match st.find? (fun a => a.provider == provider_id) with
    | none =>
        let created := st ++ [{ provider := provider_id, name := config.name,
                                client_id := cid, secret := sec, sites := [] }]
        (addSiteTo created provider_id site,
         ["Created " ++ config.name ++ " SocialApp"])
    | some _ =>
        let updated := updateFirst (fun a => a.provider == provider_id)
          (applyCredentials config) st
        (addSiteTo updated provider_id site,
         ["Updated " ++ config.name ++ " SocialApp"])

/-- `configure_social_apps` (`signals.py`): fold the loop body over the provider
entries (a Python dict, so keys are distinct), collecting the printed notices;
the final "SocialApp configuration completed" is printed after the loop. -/
def configure_social_apps (site : Nat) :
    List (String × ProviderConfig) → List SocialApp → List SocialApp × List String
  | [], st => (st, ["SocialApp configuration completed"])
  | (provider_id, config) :: rest, st =>
      let step := processProvider site st provider_id config
      let cont := configure_social_apps site rest step.1
      (cont.1, step.2 ++ cont.2)

/-- The disjunction of the two skip guards of `configure_social_apps`: a
credential missing/empty, or one of them carrying the `your_` placeholder
prefix. -/
def invalidCfg (config : ProviderConfig) : Bool :=
  !truthyStr config.client_id || !truthyStr config.client_secret ||
  pyStartswith (config.client_id.getD "") "your_" ||
  pyStartswith (config.client_secret.getD "") "your_"

/-- The skip notice printed for an invalid provider entry, matching the branch
order of the code: the missing-credentials message takes precedence over the
placeholder one. -/
def skipMessage (config : ProviderConfig) : String :=
  if !truthyStr config.client_id || !truthyStr config.client_secret then
    "Skipping " ++ config.name ++ " - credentials not provided"
  else
    "Skipping " ++ config.name ++ " - placeholder credentials detected"

/-- The two configuration sources seen by `_read_config_parameter`: whether the
`.env.local` file exists, the map `dotenv_values` would read from it, and the
process environment (`os.getenv`). -/
structure ConfigEnv where
  env_local_exists : Bool
  env_local : String → Option String
  env : String → Option String

/-- Python's `x or y` specialised to `str | None` operands: the left value when
it is truthy (non-`None`, non-empty), otherwise the right value. -/
def pyOrStr (a b : Option String) : Option String :=
  match a with
  | some s => if s.isEmpty then b else some s
  | none => b

/-- `_read_config_parameter` (`signals.py`): uppercase the parameter name, read
it from `.env.local` when that file exists, read it from the environment, and
return `value_from_env_local or value_from_env or None`. -/
def _read_config_parameter (c : ConfigEnv) (param_name : String) : Option String :=
  let param_name := pyUpper param_name
  let env_map : String → Option String :=
    if c.env_local_exists then c.env_local else fun _ => none
  let value_from_env_local := env_map param_name
  let value_from_env := c.env param_name
  pyOrStr (pyOrStr value_from_env_local value_from_env) none

/-- The configuration-value resolution rule in the spec's words: prefer the
override-file value when the file exists and the value is present and
non-empty; otherwise the environment value when present and non-empty;
otherwise absent (never an empty string); names normalised to uppercase before
lookup. Stated independently of `_read_config_parameter` to be compared with
it. -/
def resolveConfigSpec (c : ConfigEnv) (name : String) : Option String :=
  let key := pyUpper name
  let fileValue : Option String := if c.env_local_exists then c.env_local key else none
  let envValue : Option String := c.env key
  match fileValue with
  | some s =>
      if !s.isEmpty then some s
      else match envValue with
        | some t => if !t.isEmpty then some t else none
        | none => none
  | none =>
      match envValue with
      | some t => if !t.isEmpty then some t else none
      | none => none

/-- C10: the configuration-value resolution of `_read_config_parameter` agrees
with the spec's layering rule for every parameter name and every state of the
override file and the environment — uppercase-normalised lookup, override file
first when existing and non-empty, environment next when non-empty, otherwise
absent — and the returned value is never the empty string. -/
theorem read_config_parameter_resolution (c : ConfigEnv) (n : String) :
    _read_config_parameter c n = resolveConfigSpec c n ∧
    (_read_config_parameter c n).all (fun s => !s.isEmpty) = true := by
  unfold _read_config_parameter resolveConfigSpec pyOrStr
  cases he : c.env_local_exists
  · cases hv : c.env (pyUpper n) with
    | none => simp [he, hv]
    | some t => cases ht : t.isEmpty <;> simp [he, hv, ht]
  · cases hl : c.env_local (pyUpper n) with
    | none =>
        cases hv : c.env (pyUpper n) with
        | none => simp [he, hl, hv]
        | some t => cases ht : t.isEmpty <;> simp [he, hl, hv, ht]
    | some s =>
        cases hs : s.isEmpty
        · simp [he, hl, hs]
        · cases hv : c.env (pyUpper n) with
          | none => simp [he, hl, hs, hv]
          | some t => cases ht : t.isEmpty <;> simp [he, hl, hs, hv, ht]

/-! Helper lemmas about `processProvider`, `updateFirst` and
`configure_social_apps`. -/

theorem processProvider_invalid (site : Nat) (pid : String) (cfg : ProviderConfig)
    (h : invalidCfg cfg = true) (st : List SocialApp) :
    processProvider site st pid cfg = (st, [skipMessage cfg]) := by
  unfold invalidCfg at h
  unfold processProvider skipMessage
  by_cases h1 : (!truthyStr cfg.client_id || !truthyStr cfg.client_secret) = true
  · rw [if_pos h1, if_pos h1]
  · have h1f : (!truthyStr cfg.client_id || !truthyStr cfg.client_secret) = false :=
      Bool.not_eq_true _ ▸ eq_false_of_ne_true h1
    have h2 : (pyStartswith (cfg.client_id.getD "") "your_" ||
               pyStartswith (cfg.client_secret.getD "") "your_") = true := by
      simp only [Bool.or_eq_true] at h ⊢
      rcases h with ((ha | hb) | hc) | hd
      · exact absurd (by simp [ha]) (by simp [h1f] : ¬(!truthyStr cfg.client_id || !truthyStr cfg.client_secret) = true)
      · exact absurd (by simp [hb]) (by simp [h1f] : ¬(!truthyStr cfg.client_id || !truthyStr cfg.client_secret) = true)
      · exact Or.inl hc
      · exact Or.inr hd
    rw [if_neg h1, if_neg h1, if_pos h2]

theorem configure_fst_append (site : Nat) (l1 l2 : List (String × ProviderConfig))
    (st : List SocialApp) :
    (configure_social_apps site (l1 ++ l2) st).1 =
      (configure_social_apps site l2 (configure_social_apps site l1 st).1).1 := by
  induction l1 generalizing st with
  | nil => rfl
  | cons e l1 ih =>
      rcases e with ⟨pid, cfg⟩
      simp only [List.cons_append, configure_social_apps]
      exact ih _

theorem skip_notice_mem (site : Nat) (l1 l2 : List (String × ProviderConfig))
    (pid : String) (cfg : ProviderConfig) (st : List SocialApp)
    (h : invalidCfg cfg = true) :
    skipMessage cfg ∈ (configure_social_apps site (l1 ++ (pid, cfg) :: l2) st).2 := by
  induction l1 generalizing st with
  | nil =>
      simp only [List.nil_append, configure_social_apps,
        processProvider_invalid site pid cfg h]
      exact List.mem_append_left _ (List.mem_singleton_self _)
  | cons e l1 ih =>
      rcases e with ⟨pid', cfg'⟩
      simp only [List.cons_append, configure_social_apps]
      exact List.mem_append_right _ (ih _)

/-- C9: an invalid provider entry — a missing/empty credential, or a credential
with the `your_` placeholder prefix — creates and updates no `SocialApp` row:
the resulting table is exactly the one obtained by processing the other entries
alone, the matching skip notice ("credentials not provided" resp. "placeholder
credentials detected") is printed, and the remaining providers are still
processed. -/
theorem configure_skips_invalid (site : Nat) (l1 l2 : List (String × ProviderConfig))
    (pid : String) (cfg : ProviderConfig) (st : List SocialApp)
    (h : invalidCfg cfg = true) :
    (configure_social_apps site (l1 ++ (pid, cfg) :: l2) st).1 =
      (configure_social_apps site (l1 ++ l2) st).1 ∧
    skipMessage cfg ∈ (configure_social_apps site (l1 ++ (pid, cfg) :: l2) st).2 := by
  constructor
  · rw [configure_fst_append, configure_fst_append site l1 l2]
    simp only [configure_social_apps, processProvider_invalid site pid cfg h]
  · exact skip_notice_mem site l1 l2 pid cfg st h

theorem configure_skips_invalid_witness :
    ((configure_social_apps 1
        [("google", ⟨"Google", none, some "secret123"⟩),
         ("github", ⟨"GitHub", some "your_client_id", some "your_secret"⟩)] []).1 =
      (configure_social_apps 1
        [("github", ⟨"GitHub", some "your_client_id", some "your_secret"⟩)] []).1 ∧
      "Skipping Google - credentials not provided" ∈
        (configure_social_apps 1
          [("google", ⟨"Google", none, some "secret123"⟩),
           ("github", ⟨"GitHub", some "your_client_id", some "your_secret"⟩)] []).2) ∧
    ((configure_social_apps 1
        [("google", ⟨"Google", none, some "secret123"⟩),
         ("github", ⟨"GitHub", some "your_client_id", some "your_secret"⟩)] []).1 =
      (configure_social_apps 1
        [("google", ⟨"Google", none, some "secret123"⟩)] []).1 ∧
      "Skipping GitHub - placeholder credentials detected" ∈
        (configure_social_apps 1
          [("google", ⟨"Google", none, some "secret123"⟩),
           ("github", ⟨"GitHub", some "your_client_id", some "your_secret"⟩)] []).2) :=
  ⟨configure_skips_invalid 1 []
      [("github", ⟨"GitHub", some "your_client_id", some "your_secret"⟩)]
      "google" ⟨"Google", none, some "secret123"⟩ [] (by decide),
   configure_skips_invalid 1
      [("google", ⟨"Google", none, some "secret123"⟩)] []
      "github" ⟨"GitHub", some "your_client_id", some "your_secret"⟩ [] (by decide)⟩

theorem updateFirst_eq_of_fix {α : Type} {p : α → Bool} {f : α → α} {l : List α} {a : α}
    (hfind : l.find? p = some a) (hfix : f a = a) : updateFirst p f l = l := by
  induction l with
  | nil => cases hfind
  | cons x xs ih =>
      cases hp : p x with
      | true =>
          rw [List.find?_cons_of_pos _ hp] at hfind
          injection hfind with hxa
          subst hxa
          simp [updateFirst, hp, hfix]
      | false =>
          rw [List.find?_cons_of_neg _ (by simp [hp])] at hfind
          simp [updateFirst, hp, ih hfind]

theorem find?_updateFirst_self {α : Type} {p : α → Bool} {f : α → α} {l : List α} {a : α}
    (hfind : l.find? p = some a) (hpf : p (f a) = true) :
    (updateFirst p f l).find? p = some (f a) := by
  induction l with
  | nil => cases hfind
  | cons x xs ih =>
      cases hp : p x with
      | true =>
          rw [List.find?_cons_of_pos _ hp] at hfind
          injection hfind with hxa
          subst hxa
          simp only [updateFirst, if_pos hp]
          rw [List.find?_cons_of_pos _ hpf]
      | false =>
          rw [List.find?_cons_of_neg _ (by simp [hp])] at hfind
          have hstep : updateFirst p f (x :: xs) = x :: updateFirst p f xs := by
            simp [updateFirst, hp]
          rw [hstep, List.find?_cons_of_neg _ (by simp [hp])]
          exact ih hfind

theorem find?_updateFirst_frame {α : Type} (p q : α → Bool) (f : α → α) {l : List α}
    (hdisj : ∀ x, p x = true → q x = false) (hpres : ∀ x, p (f x) = p x) :
    (updateFirst q f l).find? p = l.find? p := by
  induction l with
  | nil => rfl
  | cons x xs ih =>
      cases hq : q x with
      | true =>
          have hstep : updateFirst q f (x :: xs) = f x :: xs := by
            simp [updateFirst, hq]
          rw [hstep]
          have hpx : p x = false := by
            cases hpx : p x with
            | true => exact absurd (hdisj x hpx) (by simp [hq])
            | false => rfl
          rw [List.find?_cons_of_neg _ (by simp [hpres x, hpx]),
              List.find?_cons_of_neg _ (by simp [hpx])]
      | false =>
          have hstep : updateFirst q f (x :: xs) = x :: updateFirst q f xs := by
            simp [updateFirst, hq]
          rw [hstep]
          cases hpx : p x with
          | true => rw [List.find?_cons_of_pos _ hpx, List.find?_cons_of_pos _ hpx]
          | false =>
              rw [List.find?_cons_of_neg _ (by simp [hpx]),
                  List.find?_cons_of_neg _ (by simp [hpx])]
              exact ih

theorem countP_updateFirst {α : Type} (p q : α → Bool) (f : α → α) {l : List α}
    (hpres : ∀ x, p (f x) = p x) :
    (updateFirst q f l).countP p = l.countP p := by
  induction l with
  | nil => rfl
  | cons x xs ih =>
      cases hq : q x with
      | true => simp [updateFirst, hq, List.countP_cons, hpres x]
      | false => simp [updateFirst, hq, List.countP_cons, ih]

theorem updateFirst_append_of_none {α : Type} {p : α → Bool} {f : α → α} {l l' : List α}
    (h : l.find? p = none) : updateFirst p f (l ++ l') = l ++ updateFirst p f l' := by
  induction l with
  | nil => rfl
  | cons x xs ih =>
      cases hp : p x with
      | true => rw [List.find?_cons_of_pos _ hp] at h; cases h
      | false =>
          rw [List.find?_cons_of_neg _ (by simp [hp])] at h
          simp [updateFirst, hp, ih h]

theorem invalidCfg_false_parts {cfg : ProviderConfig} (h : invalidCfg cfg = false) :
    (!truthyStr cfg.client_id || !truthyStr cfg.client_secret) = false ∧
    (pyStartswith (cfg.client_id.getD "") "your_" ||
     pyStartswith (cfg.client_secret.getD "") "your_") = false := by
  unfold invalidCfg at h
  simp only [Bool.or_eq_false_iff] at h ⊢
  exact ⟨h.1.1, h.1.2, h.2⟩

theorem processProvider_valid (site : Nat) (st : List SocialApp) (pid : String)
    (cfg : ProviderConfig) (h : invalidCfg cfg = false) :
    processProvider site st pid cfg =
      match st.find? (fun a => a.provider == pid) with
      | none =>
          (addSiteTo
            (st ++ [⟨pid, cfg.name, cfg.client_id.getD "", cfg.client_secret.getD "", []⟩])
            pid site,
           ["Created " ++ cfg.name ++ " SocialApp"])
      | some _ =>
          (addSiteTo
            (updateFirst (fun a => a.provider == pid) (applyCredentials cfg) st)
            pid site,
           ["Updated " ++ cfg.name ++ " SocialApp"]) := by
  rcases invalidCfg_false_parts h with ⟨h1, h2⟩
  unfold processProvider
  rw [if_neg (by simp [h1]), if_neg (by simp [h2])]

theorem processProvider_creates (site : Nat) (st : List SocialApp) (pid : String)
    (cfg : ProviderConfig) (h : invalidCfg cfg = false)
    (hnone : st.find? (fun a => a.provider == pid) = none) :
    (processProvider site st pid cfg).1 =
      st ++ [⟨pid, cfg.name, cfg.client_id.getD "", cfg.client_secret.getD "", [site]⟩] := by
  rw [processProvider_valid site st pid cfg h, hnone]
  simp only [addSiteTo]
  rw [updateFirst_append_of_none hnone]
  simp [updateFirst, addSiteOnce]

theorem processProvider_frame (site : Nat) (st : List SocialApp) (pid pid' : String)
    (cfg' : ProviderConfig) (hne : pid ≠ pid') :
    ((processProvider site st pid' cfg').1.find? (fun a => a.provider == pid) =
       st.find? (fun a => a.provider == pid)) ∧
    ((processProvider site st pid' cfg').1.countP (fun a => a.provider == pid) =
       st.countP (fun a => a.provider == pid)) := by
  have hdisj : ∀ x : SocialApp,
      (x.provider == pid) = true → (x.provider == pid') = false := by
    intro x hx
    simp only [beq_iff_eq] at hx
    rw [hx]
    simp [hne]
  cases hinv : invalidCfg cfg' with
  | false =>
      rw [processProvider_valid site st pid' cfg' hinv]
      cases hf : st.find? (fun a => a.provider == pid') with
      | none =>
          simp only [addSiteTo]
          constructor
          · rw [find?_updateFirst_frame (fun a => a.provider == pid)
                (fun a => a.provider == pid') (addSiteOnce site) hdisj (fun x => rfl),
                List.find?_append]
            have hlast : List.find? (fun a => a.provider == pid)
                ([⟨pid', cfg'.name, cfg'.client_id.getD "", cfg'.client_secret.getD "", []⟩] :
                  List SocialApp) = none := by
              simp [Ne.symm hne]
            rw [hlast, Option.or_none]
          · rw [countP_updateFirst (fun a => a.provider == pid)
                (fun a => a.provider == pid') (addSiteOnce site) (fun x => rfl),
                List.countP_append]
            simp [Ne.symm hne]
      | some a =>
          simp only [addSiteTo]
          constructor
          · rw [find?_updateFirst_frame (fun a => a.provider == pid)
                (fun a => a.provider == pid') (addSiteOnce site) hdisj (fun x => rfl),
                find?_updateFirst_frame (fun a => a.provider == pid)
                (fun a => a.provider == pid') (applyCredentials cfg') hdisj (fun x => rfl)]
          · rw [countP_updateFirst (fun a => a.provider == pid)
                (fun a => a.provider == pid') (addSiteOnce site) (fun x => rfl),
                countP_updateFirst (fun a => a.provider == pid)
                (fun a => a.provider == pid') (applyCredentials cfg') (fun x => rfl)]
  | true =>
      rw [processProvider_invalid site pid' cfg' hinv]
      exact ⟨rfl, rfl⟩

theorem configure_frame (site : Nat) (configs : List (String × ProviderConfig))
    (st : List SocialApp) (pid : String)
    (hall : ∀ e ∈ configs, e.1 ≠ pid) :
    ((configure_social_apps site configs st).1.find? (fun a => a.provider == pid) =
       st.find? (fun a => a.provider == pid)) ∧
    ((configure_social_apps site configs st).1.countP (fun a => a.provider == pid) =
       st.countP (fun a => a.provider == pid)) := by
  induction configs generalizing st with
  | nil => exact ⟨rfl, rfl⟩
  | cons e rest ih =>
      rcases e with ⟨pid', cfg'⟩
      have hne : pid ≠ pid' :=
        Ne.symm (hall (pid', cfg') (List.mem_cons_self _ _))
      simp only [configure_social_apps]
      have hframe := processProvider_frame site st pid pid' cfg' hne
      have hrest := ih ((processProvider site st pid' cfg').1)
        (fun e he => hall e (List.mem_cons_of_mem _ he))
      exact ⟨hrest.1.trans hframe.1, hrest.2.trans hframe.2⟩

theorem configure_establishes (site : Nat) (configs : List (String × ProviderConfig))
    (st : List SocialApp) (hkeys : (configs.map Prod.fst).Nodup) :
    ∀ pid cfg, (pid, cfg) ∈ configs → invalidCfg cfg = false →
      st.countP (fun a => a.provider == pid) = 0 →
      ((configure_social_apps site configs st).1.find? (fun a => a.provider == pid) =
         some ⟨pid, cfg.name, cfg.client_id.getD "", cfg.client_secret.getD "", [site]⟩ ∧
       (configure_social_apps site configs st).1.countP (fun a => a.provider == pid) = 1) := by
  induction configs generalizing st with
  | nil =>
      intro pid cfg hmem
      cases hmem
  | cons e rest ih =>
      rcases e with ⟨pid', cfg'⟩
      rw [List.map_cons, List.nodup_cons] at hkeys
      intro pid cfg hmem hvalid hcount
      have hfindnone : st.find? (fun a => a.provider == pid) = none := by
        rw [List.find?_eq_none]
        intro x hx
        have := List.countP_eq_zero.mp hcount x hx
        simpa using this
      rcases List.mem_cons.mp hmem with heq | hmem'
      · injection heq with h1 h2
        subst h1
        subst h2
        simp only [configure_social_apps]
        rw [processProvider_creates site st pid cfg hvalid hfindnone]
        have hall : ∀ e ∈ rest, e.1 ≠ pid := by
          intro e he hh
          apply hkeys.1
          rw [← hh]
          exact List.mem_map.mpr ⟨e, he, rfl⟩
        have hframe := configure_frame site rest
          (st ++ [⟨pid, cfg.name, cfg.client_id.getD "", cfg.client_secret.getD "", [site]⟩])
          pid hall
        constructor
        · rw [hframe.1, List.find?_append, hfindnone]
          simp
        · rw [hframe.2, List.countP_append, hcount]
          simp
      · have hpidne : pid ≠ pid' := by
          intro hh
          apply hkeys.1
          rw [← hh]
          exact List.mem_map.mpr ⟨(pid, cfg), hmem', rfl⟩
        simp only [configure_social_apps]
        apply ih _ hkeys.2 pid cfg hmem' hvalid
        rw [(processProvider_frame site st pid pid' cfg' hpidne).2]
        exact hcount

theorem processProvider_fixpoint (site : Nat) (st : List SocialApp) (pid : String)
    (cfg : ProviderConfig) (h : invalidCfg cfg = false) {a : SocialApp}
    (hfind : st.find? (fun x => x.provider == pid) = some a)
    (hname : a.name = cfg.name) (hcid : a.client_id = cfg.client_id.getD "")
    (hsec : a.secret = cfg.client_secret.getD "") (hsite : site ∈ a.sites) :
    (processProvider site st pid cfg).1 = st := by
  rw [processProvider_valid site st pid cfg h, hfind]
  simp only [addSiteTo]
  have hfU : applyCredentials cfg a = a := by
    cases a
    simp only at hname hcid hsec
    simp [applyCredentials, hname, hcid, hsec]
  rw [updateFirst_eq_of_fix hfind hfU]
  have hg : addSiteOnce site a = a := by
    cases a
    simp only at hsite
    simp [addSiteOnce, hsite]
  rw [updateFirst_eq_of_fix hfind hg]

theorem configure_fixpoint (site : Nat) (configs : List (String × ProviderConfig))
    (st : List SocialApp)
    (h : ∀ pid cfg, (pid, cfg) ∈ configs → (processProvider site st pid cfg).1 = st) :
    (configure_social_apps site configs st).1 = st := by
  induction configs with
  | nil => rfl
  | cons e rest ih =>
      rcases e with ⟨pid', cfg'⟩
      simp only [configure_social_apps]
      rw [h pid' cfg' (List.mem_cons_self _ _)]
      exact ih (fun pid cfg hm => h pid cfg (List.mem_cons_of_mem _ hm))

/-- C8: `configure_social_apps` is idempotent across re-runs: starting from an
empty `SocialApp` table, for every list of provider configs with distinct
provider keys, a second run with the same configs leaves the table exactly as
the first run left it (the existing row is overwritten in place, last-write-wins,
no duplicate is created), and for every valid non-placeholder entry the first
run produced exactly one row for that provider, carrying the config's name and
credentials and associated with the site exactly once (`sites = [site]`). -/
theorem configure_rerun_idempotent (site : Nat)
    (configs : List (String × ProviderConfig))
    (hkeys : (configs.map Prod.fst).Nodup) :
    (configure_social_apps site configs
        ((configure_social_apps site configs []).1)).1 =
      (configure_social_apps site configs []).1 ∧
    ∀ pid cfg, (pid, cfg) ∈ configs → invalidCfg cfg = false →
      ((configure_social_apps site configs []).1.find? (fun a => a.provider == pid) =
         some ⟨pid, cfg.name, cfg.client_id.getD "", cfg.client_secret.getD "", [site]⟩ ∧
       (configure_social_apps site configs []).1.countP (fun a => a.provider == pid) = 1) := by
  have hest := configure_establishes site configs [] hkeys
  constructor
  · apply configure_fixpoint
    intro pid cfg hmem
    cases hinv : invalidCfg cfg with
    | true => rw [processProvider_invalid site pid cfg hinv]
    | false =>
        rcases hest pid cfg hmem hinv rfl with ⟨hfind, _⟩
        exact processProvider_fixpoint site _ pid cfg hinv hfind rfl rfl rfl
          (List.mem_singleton_self site)
  · intro pid cfg hmem hvalid
    exact hest pid cfg hmem hvalid rfl

theorem configure_rerun_idempotent_witness :
    ((configure_social_apps 1
        [("google", ⟨"Google", some "id-1", some "sec-1"⟩)]
        ((configure_social_apps 1
          [("google", ⟨"Google", some "id-1", some "sec-1"⟩)] []).1)).1 =
      (configure_social_apps 1
        [("google", ⟨"Google", some "id-1", some "sec-1"⟩)] []).1) ∧
    ∀ pid cfg, (pid, cfg) ∈
        ([("google", ⟨"Google", some "id-1", some "sec-1"⟩)] :
          List (String × ProviderConfig)) →
      invalidCfg cfg = false →
      ((configure_social_apps 1
          [("google", ⟨"Google", some "id-1", some "sec-1"⟩)] []).1.find?
            (fun a => a.provider == pid) =
         some ⟨pid, cfg.name, cfg.client_id.getD "", cfg.client_secret.getD "", [1]⟩ ∧
       (configure_social_apps 1
          [("google", ⟨"Google", some "id-1", some "sec-1"⟩)] []).1.countP
            (fun a => a.provider == pid) = 1) :=
  configure_rerun_idempotent 1
    [("google", ⟨"Google", some "id-1", some "sec-1"⟩)] (by decide)

end TodoApp
